import Mathlib

/-!
Shallow embedding of src/oracle-agent.py (KRYV-MCP Oracle VM agent).

Modelling conventions:
* Timestamps (POSIX seconds, utcnow, st_mtime) are natural numbers.  The
  ISO-8601 rendering used by the source as a sort key and cache timestamp is
  strictly monotone in the underlying POSIX time, so ordering facts stated on
  the numeric timestamp are exactly the ordering facts of the rendered string.
* Filesystem paths are lists of components; the user home directory and the
  set of existing directories are part of an explicit filesystem value.
* Network behaviour is an oracle value: either an HTTP response (status code
  plus parse result of the body) or a requests-level exception.
* Side effects (cache writes, HTTP calls, log lines) are recorded as explicit
  event and log lists, in the order the source performs them.
* Python exceptions are modelled with Except; an uncaught exception is an
  Except.error result of the embedded function.
-/

namespace Kryv

/-- JSON-compatible values (model of the Python dict / list / scalar data). -/
inductive JVal where
  | str : String → JVal
  | nat : Nat → JVal
  | rat : ℚ → JVal
  | bool : Bool → JVal
  | arr : List JVal → JVal
  | obj : List (String × JVal) → JVal

/-- A JSON object: ordered association list, as a Python dict. -/
abbrev JObj := List (String × JVal)

/-- Python dict update: if the key is present its value is replaced in
place, otherwise the pair is appended at the end.  This is the semantics of
the source expression with a double-star unpacking of data followed by the
updated_at key. -/
def dictSet (o : JObj) (k : String) (v : JVal) : JObj :=
  if o.any (fun p => p.1 == k) then
    o.map (fun p => if p.1 = k then (k, v) else p)
  else
    o ++ [(k, v)]

/-- Lookup in a JSON object, as Python dict.get. -/
def jGet (o : JObj) (k : String) : Option JVal :=
  (o.find? (fun p => p.1 == k)).map (fun p => p.2)

/-- Agent configuration, read from the environment at startup
(KRYV_SERVER, KRYV_CLIENT_ID, KRYV_PRIVACY). -/
structure Config where
  server : String
  client_id : String
  privacy_mode : Bool

/-- Result of one HTTP request: a response carrying the status code and the
outcome of parsing its JSON body, or a network-level exception
(requests.RequestException: connection refused, timeout, DNS failure). -/
inductive NetResult where
  | response : Nat → Except Unit JObj → NetResult
  | exc : NetResult

/-- requests.Response.ok: true unless raise_for_status would raise, which
happens exactly for status codes in 400..599. -/
def respOk (status : Nat) : Bool :=
  decide (status < 400 ∨ 600 ≤ status)

/-- Externally visible actions of the agent, in execution order. -/
inductive Event where
  | cacheWrite : String → JObj → Event
  | httpPost : String → String → String → JObj → Event
  | httpGet : String → Event

/-- Log lines emitted by the agent (message formatting elided; the
constructor identifies which log statement of the source fired, with the
data it interpolates). -/
inductive LogMsg where
  | pushed : String → LogMsg
  | pushFailed : String → Nat → LogMsg
  | netErr : LogMsg
  | storedLocally : String → LogMsg
  | serverOk : Option JVal → Option JVal → LogMsg
  | serverStatus : Nat → LogMsg
  | serverUnreachable : LogMsg

/-- The local cache: one JSON file per source name under the scratch
directory, modelled as a map from source name to file content. -/
abbrev Cache := String → Option JObj

/-- Lines 62-65 of the source: write data merged with an updated_at
timestamp to the file named after the source, overwriting prior content. -/
def store_local (cache : Cache) (source : String) (data : JObj) (now : Nat) : Cache :=
  fun s =>
    if s = source then some (dictSet data "updated_at" (JVal.nat now)) else cache s

/-- The only error push_context can raise: an I/O error from the local
cache write (open or json.dump failing). -/
inductive PushErr where
  | ioError
deriving DecidableEq

/-- Result state of one push_context call. -/
structure PushOutcome where
  cache : Cache
  events : List Event
  logs : List LogMsg

/-- push_context (lines 58-78).  diskOk models whether the local file write
succeeds; net is the network oracle consulted only if a POST is issued. -/
def push_context (cfg : Config) (diskOk : Bool) (net : NetResult) (cache : Cache)
    (now : Nat) (source : String) (data : JObj) : Except PushErr PushOutcome :=
  let content := dictSet data "updated_at" (JVal.nat now)
  if diskOk then
    let cache1 := store_local cache source data now
    if !cfg.privacy_mode && cfg.client_id != "" then
      let ev := [Event.cacheWrite source content,
                 Event.httpPost (cfg.server ++ "/push") cfg.client_id source data]
      match net with
      | NetResult.response status _ =>
        if respOk status then
          Except.ok ⟨cache1, ev, [LogMsg.pushed source]⟩
        else
          Except.ok ⟨cache1, ev, [LogMsg.pushFailed source status]⟩
      | NetResult.exc => Except.ok ⟨cache1, ev, [LogMsg.netErr]⟩
    else
      Except.ok ⟨cache1, [Event.cacheWrite source content], [LogMsg.storedLocally source]⟩
  else
    Except.error PushErr.ioError

/-- check_server (lines 196-209): GET the health endpoint; on an ok status
parse the body and log version and db (dict.get with a default tolerates
absence); on a failing status log it; any exception, including a JSON parse
failure of the body, is caught and logged.  Always returns a Bool. -/
def check_server (cfg : Config) (net : NetResult) : Bool × List Event × List LogMsg :=
  let ev := [Event.httpGet (cfg.server ++ "/health")]
  match net with
  | NetResult.response status body =>
    if respOk status then
      match body with
      | Except.ok data => (true, ev, [LogMsg.serverOk (jGet data "version") (jGet data "db")])
      | Except.error _ => (false, ev, [LogMsg.serverUnreachable])
    else
      (false, ev, [LogMsg.serverStatus status])
  | NetResult.exc => (false, ev, [LogMsg.serverUnreachable])

/-! ### Scheduler and process entry (lines 213-236) -/

/-- The three callables the entry point wires into the scheduler. -/
inductive AgentJob where
  | quick_sync
  | full_sync
  | server_check
deriving DecidableEq

/-- A registered recurring job: a callable bound to a fixed interval in
minutes (schedule.every(n).minutes.do). -/
structure Job where
  action : AgentJob
  interval_min : Nat
deriving DecidableEq

/-- Actions main runs once, in order, before entering the scheduler loop:
the startup health check, then one immediate full sync. -/
def main_startup : List AgentJob :=
  [AgentJob.server_check, AgentJob.full_sync]

/-- The jobs main registers, in registration order, with their intervals:
quick sync every 1 minute, full sync every 5 minutes, health check every
30 minutes. -/
def main_jobs : List Job :=
  [⟨AgentJob.quick_sync, 1⟩, ⟨AgentJob.full_sync, 5⟩, ⟨AgentJob.server_check, 30⟩]

/-- Scheduler state: the registered jobs and, per callable, the time the
library last ran it (registration counts as the base time for the first
interval, as in the schedule library). -/
structure SchedState where
  jobs : List Job
  lastRun : AgentJob → Nat

/-- Scheduler state right after main registers the jobs at time t0. -/
def main_initial_state (t0 : Nat) : SchedState :=
  ⟨main_jobs, fun _ => t0⟩

/-- One schedule.run_pending call of the loop at the given time: runs every
registered job whose interval has elapsed, in registration order, updating
only the per-job last-run bookkeeping. -/
def runPending (s : SchedState) (now : Nat) : SchedState × List AgentJob :=
  let due := s.jobs.filter (fun j => decide (s.lastRun j.action + j.interval_min * 60 ≤ now))
  (⟨s.jobs, fun a => if due.any (fun j => j.action == a) then now else s.lastRun a⟩,
   due.map (fun j => j.action))

/-! ### Filesystem model and collectors -/

/-- One regular file of the modelled filesystem.  statOk models whether
os.stat succeeds on it (a false value raises PermissionError); readable
models whether read_text succeeds. -/
structure FileEntry where
  path : List String
  mtime : Nat
  size : Nat
  statOk : Bool
  readable : Bool
  content : String
deriving DecidableEq

/-- A filesystem: the home directory, the set of existing directories, and
the regular files in directory-traversal order. -/
structure FS where
  home : List String
  dirs : List (List String)
  files : List FileEntry

/-- Path rendering, as str of a pathlib absolute path. -/
def pathStr (p : List String) : String :=
  "/" ++ String.intercalate "/" p

/-- Whether path p is strictly below directory d, i.e. rglob of d yields
it. -/
def underDir (d : List String) (p : List String) : Bool :=
  d.isPrefixOf p && decide (d.length < p.length)

/-- The final path component, pathlib name. -/
def fileName (f : FileEntry) : String :=
  f.path.getLastD ""

/-- relative_to of the home directory: the joined remainder when home is a
path prefix, otherwise the ValueError pathlib raises. -/
def relToHome (home : List String) (p : List String) : Except Unit String :=
  if home.isPrefixOf p then
    Except.ok (String.intercalate "/" (p.drop home.length))
  else
    Except.error ()

/-- Index of the last dot in a character list, if any. -/
def rfindDot : List Char → Option Nat
  | [] => none
  | c :: cs =>
    match rfindDot cs with
    | some i => some (i + 1)
    | none => if c = '.' then some 0 else none

/-- pathlib suffix of a file name: from the last dot onward, provided that
dot is neither the first nor the last character; otherwise empty. -/
def pySuffix (name : String) : String :=
  let cs := name.toList
  match rfindDot cs with
  | some i => if 0 < i ∧ i < cs.length - 1 then String.mk (cs.drop i) else ""
  | none => ""

/-- Round to the nearest integer, ties to even: the rounding of Python
round on an exactly represented value. -/
def roundHalfEven (q : ℚ) : ℤ :=
  let f := Int.floor q
  if q - f < 1 / 2 then f
  else if 1 / 2 < q - f then f + 1
  else if f % 2 = 0 then f else f + 1

/-- Python round(x, 1). -/
def round1 (q : ℚ) : ℚ :=
  (roundHalfEven (q * 10) : ℚ) / 10

/-- round(size / 1024, 1): the byte size is below 2 to the 53, so the float
division is exact and round acts on the true rational. -/
def size_kb (size : Nat) : ℚ :=
  round1 ((size : ℚ) / 1024)

/-- One entry of the recent-files list (the dict built on lines 119-125);
the modified field carries the timestamp whose ISO rendering the source
stores. -/
structure FileRec where
  name : String
  path : String
  size_kb : ℚ
  modified : Nat
  type : String
deriving DecidableEq

/-- Build the record for one matching file; fails with the uncaught
ValueError when the file is not under the home directory. -/
def mkFileRec (home : List String) (f : FileEntry) : Except Unit FileRec :=
  match relToHome home f.path with
  | Except.ok rel =>
    Except.ok ⟨fileName f, rel, size_kb f.size, f.mtime, (pySuffix (fileName f)).toLower⟩
  | Except.error e => Except.error e

/-- Traversal of one watched directory (the inner loop of lines 116-127):
files are visited in order; a stat failure raises PermissionError, which
the source catches by abandoning the rest of this directory while keeping
entries already collected; a fresh-enough file outside home makes mkFileRec
raise ValueError, which nothing catches. -/
def scanDir (home : List String) (cutoff : Nat) : List FileEntry → Except Unit (List FileRec)
  | [] => Except.ok []
  | f :: rest =>
    if !f.statOk then Except.ok []
    else if decide (cutoff < f.mtime) then
      match mkFileRec home f with
      | Except.error e => Except.error e
      | Except.ok r =>
        match scanDir home cutoff rest with
        | Except.error e => Except.error e
        | Except.ok rs => Except.ok (r :: rs)
    else scanDir home cutoff rest

/-- The outer loop of collect_local_files over the watch directories:
missing directories are skipped, the collected entries of existing ones are
concatenated in order. -/
def gatherDirs (fs : FS) (cutoff : Nat) : List (List String) → Except Unit (List FileRec)
  | [] => Except.ok []
  | d :: ds =>
    if fs.dirs.contains d then
      match scanDir fs.home cutoff (fs.files.filter (fun f => underDir d f.path)) with
      | Except.error e => Except.error e
      | Except.ok l =>
        match gatherDirs fs cutoff ds with
        | Except.error e => Except.error e
        | Except.ok r => Except.ok (l ++ r)
    else gatherDirs fs cutoff ds

/-- Comparison used to sort file records newest first: the source sorts on
the ISO modified string with reverse set, a stable sort descending in the
timestamp. -/
def fileDesc (a b : FileRec) : Bool :=
  decide (b.modified ≤ a.modified)

/-- Result of collect_local_files. -/
structure FilesResult where
  recent_files : List FileRec
  count : Nat
  watched_dirs : List String
deriving DecidableEq

/-- The default watch directories: Documents, Downloads, Desktop under
home. -/
def default_watch_dirs (home : List String) : List (List String) :=
  [home ++ ["Documents"], home ++ ["Downloads"], home ++ ["Desktop"]]

/-- collect_local_files (lines 100-134): gather files modified in the last
24 hours under the watched directories, sort newest first, truncate to 50,
and report the untruncated count and the watched directories. -/
def collect_local_files (fs : FS) (watch_dirs : List (List String)) (now : Nat) :
    Except Unit FilesResult :=
  let cutoff := now - 24 * 60 * 60
  match gatherDirs fs cutoff watch_dirs with
  | Except.error e => Except.error e
  | Except.ok files =>
    Except.ok ⟨(files.mergeSort fileDesc).take 50, files.length, watch_dirs.map pathStr⟩

/-- The note file extensions of collect_notes. -/
def noteExtensions : List String :=
  [".txt", ".md", ".markdown", ".text"]

/-- Whether a file passes the extension filter of collect_notes. -/
def isNoteFile (f : FileEntry) : Bool :=
  noteExtensions.contains ((pySuffix (fileName f)).toLower)

/-- One entry of the notes list (the dict built on lines 150-156). -/
structure NoteRec where
  name : String
  path : String
  preview : String
  word_count : Nat
  modified : Nat
deriving DecidableEq

/-- Python str.split with no separator: number of maximal whitespace-free
words. -/
def wordCount (s : String) : Nat :=
  ((s.split (fun c => c.isWhitespace)).filter (fun w => w != "")).length

/-- Build the record for one note file: preview is the first 200
characters trimmed, word_count counts whitespace-separated words of the
whole content; relative_to failure is reported so the caller can skip the
file (collect_notes catches every exception per file). -/
def mkNoteRec (home : List String) (f : FileEntry) : Except Unit NoteRec :=
  match relToHome home f.path with
  | Except.ok rel =>
    Except.ok ⟨fileName f, rel, (f.content.take 200).trim, wordCount f.content, f.mtime⟩
  | Except.error e => Except.error e

/-- Per-file body of collect_notes (lines 147-158): a file whose read or
stat fails, or whose record construction raises, is skipped individually;
the scan always continues. -/
def scanNotes (home : List String) : List FileEntry → List NoteRec
  | [] => []
  | f :: rest =>
    if f.readable && f.statOk then
      match mkNoteRec home f with
      | Except.ok r => r :: scanNotes home rest
      | Except.error _ => scanNotes home rest
    else scanNotes home rest

/-- Result of collect_notes. -/
structure NotesResult where
  notes : List NoteRec
  count : Nat
deriving DecidableEq

/-- Comparison used to sort note records newest first. -/
def noteDesc (a b : NoteRec) : Bool :=
  decide (b.modified ≤ a.modified)

/-- The fixed note directories: Notes, Documents, Desktop under home. -/
def note_dirs (home : List String) : List (List String) :=
  [home ++ ["Notes"], home ++ ["Documents"], home ++ ["Desktop"]]

/-- collect_notes (lines 136-161): scan the fixed note directories for
files with a note extension, skip unreadable ones, sort newest first,
truncate to 20 and report the untruncated count. -/
def collect_notes (fs : FS) : NotesResult :=
  let gathered := (note_dirs fs.home).flatMap (fun d =>
    if fs.dirs.contains d then
      scanNotes fs.home ((fs.files.filter (fun f => underDir d f.path)).filter isNoteFile)
    else [])
  ⟨(gathered.mergeSort noteDesc).take 20, gathered.length⟩

/-- System statistics as psutil reports them. -/
structure SysStats where
  cpu_percent : ℚ
  memory_percent : ℚ
  disk_percent : ℚ

/-- collect_system_info (lines 82-98): full stats when psutil imports,
otherwise the platform and hostname plus an explanatory note.  Total in
either case. -/
def collect_system_info (psutilAvailable : Bool) (stats : SysStats)
    (platformSystem hostname : String) : JObj :=
  if psutilAvailable then
    [("cpu_percent", JVal.rat stats.cpu_percent),
     ("memory_percent", JVal.rat stats.memory_percent),
     ("disk_percent", JVal.rat stats.disk_percent),
     ("platform", JVal.str platformSystem),
     ("hostname", JVal.str hostname)]
  else
    [("platform", JVal.str platformSystem),
     ("hostname", JVal.str hostname),
     ("note", JVal.str "install psutil for full stats")]

/-- Outcome of running the xclip subprocess: a completed process with its
return code and captured output, or any exception (missing binary,
timeout). -/
inductive ClipResult where
  | completed : Int → String → ClipResult
  | exc : ClipResult
deriving DecidableEq

/-- collect_clipboard (lines 163-173): content truncated to 500 characters
when xclip succeeds with nonempty output, otherwise the explanatory
fallback.  Total. -/
def collect_clipboard : ClipResult → JObj
  | ClipResult.completed rc out =>
    if rc == 0 && out != "" then
      [("content", JVal.str (out.take 500)), ("has_content", JVal.bool true)]
    else
      [("has_content", JVal.bool false),
       ("note", JVal.str "xclip not available or clipboard empty")]
  | ClipResult.exc =>
    [("has_content", JVal.bool false),
     ("note", JVal.str "xclip not available or clipboard empty")]

/-! ### Helper lemmas -/

theorem dictSet_of_fresh {o : JObj} {k : String} (v : JVal)
    (h : ∀ p ∈ o, p.1 ≠ k) : dictSet o k v = o ++ [(k, v)] := by
  have hany : o.any (fun p => p.1 == k) = false := by
    simp only [List.any_eq_false, beq_iff_eq]
    exact fun p hp => h p hp
  simp [dictSet, hany]

theorem jGet_append_fresh {o : JObj} {k : String} (v : JVal)
    (h : ∀ p ∈ o, p.1 ≠ k) : jGet (o ++ [(k, v)]) k = some v := by
  induction o with
  | nil => simp [jGet]
  | cons p rest ih =>
    have hp : (p.1 == k) = false := by
      simp only [beq_eq_false_iff_ne, ne_eq]
      exact h p (by simp)
    have ih2 := ih (fun q hq => h q (by simp [hq]))
    simpa [jGet, List.find?_cons, hp] using ih2

/-! ### Claims about push_context and the local cache -/

/-- C1: for every push_context call, the local cache write happens
unconditionally and before any network activity, and the HTTP POST is
attempted if and only if privacy mode is disabled and the client identity
is nonempty; with privacy on or an empty identity the call issues zero
network actions yet the cache is still written. -/
theorem push_context_local_always_remote_iff
    (cfg : Config) (net : NetResult) (cache : Cache) (now : Nat)
    (source : String) (data : JObj) :
    ∃ out, push_context cfg true net cache now source data = Except.ok out ∧
      out.events.head? =
        some (Event.cacheWrite source (dictSet data "updated_at" (JVal.nat now))) ∧
      out.cache source = some (dictSet data "updated_at" (JVal.nat now)) ∧
      ((∃ u c s d, Event.httpPost u c s d ∈ out.events) ↔
        (cfg.privacy_mode = false ∧ cfg.client_id ≠ "")) ∧
      (cfg.privacy_mode = true ∨ cfg.client_id = "" →
        out.events =
          [Event.cacheWrite source (dictSet data "updated_at" (JVal.nat now))]) := by
  by_cases hb : (!cfg.privacy_mode && cfg.client_id != "") = true
  · have hpm : cfg.privacy_mode = false ∧ cfg.client_id ≠ "" := by
      simpa [Bool.and_eq_true, Bool.not_eq_true'] using hb
    have hno : ¬(cfg.privacy_mode = true ∨ cfg.client_id = "") := by
      rintro (h | h)
      · rw [hpm.1] at h; cases h
      · exact hpm.2 h
    have key : ∃ logs, push_context cfg true net cache now source data =
        Except.ok ⟨store_local cache source data now,
          [Event.cacheWrite source (dictSet data "updated_at" (JVal.nat now)),
           Event.httpPost (cfg.server ++ "/push") cfg.client_id source data], logs⟩ := by
      cases net with
      | response status body =>
        by_cases hr : respOk status = true
        · exact ⟨[LogMsg.pushed source], by simp [push_context, hb, hr]⟩
        · have hr2 : respOk status = false := by
            revert hr; cases respOk status <;> simp
          exact ⟨[LogMsg.pushFailed source status], by simp [push_context, hb, hr2]⟩
      | exc => exact ⟨[LogMsg.netErr], by simp [push_context, hb]⟩
    rcases key with ⟨logs, heq⟩
    refine ⟨_, heq, rfl, by simp [store_local], ?_, ?_⟩
    · constructor
      · intro _; exact hpm
      · intro _
        exact ⟨cfg.server ++ "/push", cfg.client_id, source, data, by simp⟩
    · intro h; exact absurd h hno
  · have hb2 : (!cfg.privacy_mode && cfg.client_id != "") = false := by
      revert hb; cases (!cfg.privacy_mode && cfg.client_id != "") <;> simp
    have hpm : ¬(cfg.privacy_mode = false ∧ cfg.client_id ≠ "") := by
      intro ⟨h1, h2⟩
      apply hb
      simp [Bool.and_eq_true, Bool.not_eq_true', h1, h2]
    refine ⟨⟨store_local cache source data now,
      [Event.cacheWrite source (dictSet data "updated_at" (JVal.nat now))],
      [LogMsg.storedLocally source]⟩,
      by simp [push_context, hb2], rfl, by simp [store_local], ?_, fun _ => rfl⟩
    constructor
    · rintro ⟨u, c, s, d, hmem⟩
      simp at hmem
    · intro h; exact absurd h hpm

/-- C3 counterexample: with privacy off and a client identity set, a
response with status 304 (not 2xx-class) still makes push_context log a
push success, so success logging is not equivalent to a 2xx status. -/
theorem push_context_304_logs_success :
    ∃ out, push_context ⟨"srv", "c", false⟩ true
        (NetResult.response 304 (Except.ok [])) (fun _ => none) 0 "system_info" []
      = Except.ok out ∧
      out.logs = [LogMsg.pushed "system_info"] ∧ ¬(200 ≤ 304 ∧ 304 < 300) :=
  ⟨_, rfl, rfl, by decide⟩

/-- C3 amended: when the POST is issued, a push success is logged if and
only if requests reports the response as ok, i.e. the status is outside
400..599; on a status in 400..599 the status code is logged and the call
returns normally with exactly one POST attempted (no retry); a
network-level failure is caught and logged and the call returns normally. -/
theorem push_context_logging
    (cfg : Config) (net : NetResult) (cache : Cache) (now : Nat)
    (source : String) (data : JObj)
    (hp : cfg.privacy_mode = false) (hc : cfg.client_id ≠ "") :
    ∃ out, push_context cfg true net cache now source data = Except.ok out ∧
      (∀ status body, net = NetResult.response status body →
        out.logs = if respOk status then [LogMsg.pushed source]
                   else [LogMsg.pushFailed source status]) ∧
      (net = NetResult.exc → out.logs = [LogMsg.netErr]) ∧
      out.events.countP (fun e => match e with
        | Event.httpPost _ _ _ _ => true
        | _ => false) = 1 ∧
      (∀ status : Nat, respOk status = true ↔ (status < 400 ∨ 600 ≤ status)) := by
  have hb : (!cfg.privacy_mode && cfg.client_id != "") = true := by
    simp [Bool.and_eq_true, Bool.not_eq_true', hp, hc]
  have hresp : ∀ status : Nat, respOk status = true ↔ (status < 400 ∨ 600 ≤ status) := by
    intro status; simp [respOk]
  cases net with
  | response status body =>
    by_cases hr : respOk status = true
    · refine ⟨⟨store_local cache source data now,
        [Event.cacheWrite source (dictSet data "updated_at" (JVal.nat now)),
         Event.httpPost (cfg.server ++ "/push") cfg.client_id source data],
        [LogMsg.pushed source]⟩,
        (by simp [push_context, hb, hr]), ?_, (by intro h; cases h),
        (by simp [List.countP_cons]), hresp⟩
      intro s b hsb
      injection hsb with h1 h2
      subst h1
      simp [hr]
    · have hr2 : respOk status = false := by
        revert hr; cases respOk status <;> simp
      refine ⟨⟨store_local cache source data now,
        [Event.cacheWrite source (dictSet data "updated_at" (JVal.nat now)),
         Event.httpPost (cfg.server ++ "/push") cfg.client_id source data],
        [LogMsg.pushFailed source status]⟩,
        (by simp [push_context, hb, hr2]), ?_, (by intro h; cases h),
        (by simp [List.countP_cons]), hresp⟩
      intro s b hsb
      injection hsb with h1 h2
      subst h1
      simp [hr2]
  | exc =>
    exact ⟨⟨store_local cache source data now,
      [Event.cacheWrite source (dictSet data "updated_at" (JVal.nat now)),
       Event.httpPost (cfg.server ++ "/push") cfg.client_id source data],
      [LogMsg.netErr]⟩,
      (by simp [push_context, hb]), (by intro s b hsb; cases hsb),
      fun _ => rfl, (by simp [List.countP_cons]), hresp⟩

/-- C3 witness: the amended theorem applied at a concrete configuration
and a 500 response. -/
theorem push_context_logging_witness :
    ∃ out, push_context ⟨"srv", "c", false⟩ true
        (NetResult.response 500 (Except.ok [])) (fun _ => none) 0 "system_info" []
      = Except.ok out ∧
      (∀ status body,
        NetResult.response 500 (Except.ok []) = NetResult.response status body →
        out.logs = if respOk status then [LogMsg.pushed "system_info"]
                   else [LogMsg.pushFailed "system_info" status]) ∧
      (NetResult.response 500 (Except.ok []) = NetResult.exc →
        out.logs = [LogMsg.netErr]) ∧
      out.events.countP (fun e => match e with
        | Event.httpPost _ _ _ _ => true
        | _ => false) = 1 ∧
      (∀ status : Nat, respOk status = true ↔ (status < 400 ∨ 600 ≤ status)) :=
  push_context_logging ⟨"srv", "c", false⟩ (NetResult.response 500 (Except.ok []))
    (fun _ => none) 0 "system_info" [] rfl (by decide)

/-- C4: when the local cache write fails with an I/O error, push_context
propagates the error to the caller; it is not caught, and no push-success
path is reached (the call produces no outcome at all). -/
theorem push_context_cache_failure_propagates
    (cfg : Config) (net : NetResult) (cache : Cache) (now : Nat)
    (source : String) (data : JObj) :
    push_context cfg false net cache now source data = Except.error PushErr.ioError := rfl

/-- C6: storing a data mapping without an updated_at key and reading the
file of that source back yields exactly the stored data plus an updated_at
timestamp no earlier than the store-call time, and the write fully
overwrites whatever the prior file content was. -/
theorem store_local_read_roundtrip
    (cache : Cache) (source : String) (data : JObj) (now : Nat)
    (h : ∀ p ∈ data, p.1 ≠ "updated_at") :
    store_local cache source data now source
      = some (data ++ [("updated_at", JVal.nat now)]) ∧
    (∃ t, jGet (data ++ [("updated_at", JVal.nat now)]) "updated_at"
      = some (JVal.nat t) ∧ now ≤ t) ∧
    (∀ cache2 : Cache, store_local cache2 source data now source
      = store_local cache source data now source) := by
  refine ⟨?_, ⟨now, jGet_append_fresh _ h, le_refl now⟩, fun cache2 => ?_⟩
  · simp [store_local, dictSet_of_fresh _ h]
  · simp [store_local]

/-- C6 witness: the roundtrip theorem applied to a concrete cache, source
and data mapping. -/
theorem store_local_read_roundtrip_witness :
    (∀ p ∈ ([("cpu", JVal.nat 5)] : JObj), p.1 ≠ "updated_at") ∧
    store_local (fun _ => none) "system_info" [("cpu", JVal.nat 5)] 100 "system_info"
      = some ([("cpu", JVal.nat 5)] ++ [("updated_at", JVal.nat 100)]) :=
  ⟨by decide,
   (store_local_read_roundtrip (fun _ => none) "system_info"
     [("cpu", JVal.nat 5)] 100 (by decide)).1⟩

theorem check_server_eq_ok (cfg : Config) (status : Nat) (data : JObj)
    (hr : respOk status = true) :
    check_server cfg (NetResult.response status (Except.ok data)) =
      (true, [Event.httpGet (cfg.server ++ "/health")],
        [LogMsg.serverOk (jGet data "version") (jGet data "db")]) := by
  simp [check_server, hr]

theorem check_server_eq_badstatus (cfg : Config) (status : Nat)
    (body : Except Unit JObj) (hr : respOk status = false) :
    check_server cfg (NetResult.response status body) =
      (false, [Event.httpGet (cfg.server ++ "/health")],
        [LogMsg.serverStatus status]) := by
  simp [check_server, hr]

theorem check_server_eq_parsefail (cfg : Config) (status : Nat) (e : Unit)
    (hr : respOk status = true) :
    check_server cfg (NetResult.response status (Except.error e)) =
      (false, [Event.httpGet (cfg.server ++ "/health")],
        [LogMsg.serverUnreachable]) := by
  simp [check_server, hr]

/-- C8: check_server always returns a boolean and never propagates an
exception: it returns true exactly when the response has an ok status and
a parseable JSON body, in which case it logs the version and db fields
tolerating their absence; on a failing status it logs the status code and
returns false; on a network exception or a malformed body it logs and
returns false. -/
theorem check_server_total_spec (cfg : Config) (net : NetResult) :
    ((check_server cfg net).1 = true ↔
      ∃ status data, net = NetResult.response status (Except.ok data) ∧
        respOk status = true) ∧
    (∀ status body, net = NetResult.response status body → respOk status = false →
      check_server cfg net =
        (false, [Event.httpGet (cfg.server ++ "/health")],
          [LogMsg.serverStatus status])) ∧
    (net = NetResult.exc →
      check_server cfg net =
        (false, [Event.httpGet (cfg.server ++ "/health")],
          [LogMsg.serverUnreachable])) ∧
    (∀ status data, net = NetResult.response status (Except.ok data) →
      respOk status = true →
      check_server cfg net =
        (true, [Event.httpGet (cfg.server ++ "/health")],
          [LogMsg.serverOk (jGet data "version") (jGet data "db")])) ∧
    (∀ status e, net = NetResult.response status (Except.error e) →
      (check_server cfg net).1 = false) := by
  refine ⟨?_, ?_, ?_, ?_, ?_⟩
  · constructor
    · intro h
      cases net with
      | response status body =>
        cases body with
        | ok data =>
          by_cases hr : respOk status = true
          · exact ⟨status, data, rfl, hr⟩
          · have hr2 : respOk status = false := by
              revert hr; cases respOk status <;> simp
            rw [check_server_eq_badstatus cfg status _ hr2] at h
            cases h
        | error e =>
          by_cases hr : respOk status = true
          · rw [check_server_eq_parsefail cfg status e hr] at h
            cases h
          · have hr2 : respOk status = false := by
              revert hr; cases respOk status <;> simp
            rw [check_server_eq_badstatus cfg status _ hr2] at h
            cases h
      | exc => simp [check_server] at h
    · rintro ⟨status, data, rfl, hr⟩
      rw [check_server_eq_ok cfg status data hr]
  · intro status body hnet hr2
    subst hnet
    exact check_server_eq_badstatus cfg status body hr2
  · intro hnet
    subst hnet
    rfl
  · intro status data hnet hr
    subst hnet
    exact check_server_eq_ok cfg status data hr
  · intro status e hnet
    subst hnet
    by_cases hr : respOk status = true
    · rw [check_server_eq_parsefail cfg status e hr]
    · have hr2 : respOk status = false := by
        revert hr; cases respOk status <;> simp
      rw [check_server_eq_badstatus cfg status _ hr2]

/-- C8 witness: the theorem applied at a concrete configuration and a 500
response, showing the status is logged and false returned. -/
theorem check_server_total_spec_witness :
    check_server ⟨"srv", "c", false⟩ (NetResult.response 500 (Except.ok []))
      = (false, [Event.httpGet ("srv" ++ "/health")], [LogMsg.serverStatus 500]) :=
  (check_server_total_spec ⟨"srv", "c", false⟩
    (NetResult.response 500 (Except.ok []))).2.1 500 (Except.ok []) rfl (by decide)

/-- C9: the startup sequence runs the full sync exactly once before the
loop begins, exactly the three jobs quick sync every 1 minute, full sync
every 5 minutes and health check every 30 minutes are registered, and the
loop steps never add or remove jobs. -/
theorem main_schedule_spec :
    main_startup.count AgentJob.full_sync = 1 ∧
    main_startup = [AgentJob.server_check, AgentJob.full_sync] ∧
    main_jobs =
      [⟨AgentJob.quick_sync, 1⟩, ⟨AgentJob.full_sync, 5⟩, ⟨AgentJob.server_check, 30⟩] ∧
    main_jobs.length = 3 ∧
    (∀ t0, (main_initial_state t0).jobs = main_jobs) ∧
    (∀ s now, ((runPending s now).1).jobs = s.jobs) :=
  ⟨by decide, rfl, rfl, rfl, fun _ => rfl, fun _ _ => rfl⟩

/-- C10: check_server issues the GET to the health endpoint for every
configuration, privacy mode and empty identity included; it is invoked at
startup and registered as the 30-minute job, so privacy mode suppresses
only push delivery. -/
theorem check_server_unconditional_get (cfg : Config) (net : NetResult) :
    Event.httpGet (cfg.server ++ "/health") ∈ (check_server cfg net).2.1 ∧
    AgentJob.server_check ∈ main_startup ∧
    (⟨AgentJob.server_check, 30⟩ : Job) ∈ main_jobs := by
  refine ⟨?_, by decide, by decide⟩
  cases net with
  | response status body =>
    cases body with
    | ok data => by_cases hr : respOk status = true <;> simp [check_server, hr]
    | error e => by_cases hr : respOk status = true <;> simp [check_server, hr]
  | exc => simp [check_server]

/-! ### Collectors on an environment with nothing to collect -/

theorem gatherDirs_of_missing (fs : FS) (cutoff : Nat) (ds : List (List String))
    (h : ∀ d ∈ ds, fs.dirs.contains d = false) :
    gatherDirs fs cutoff ds = Except.ok [] := by
  induction ds with
  | nil => rfl
  | cons d rest ih =>
    have hd := h d (by simp)
    have ih2 := ih (fun x hx => h x (by simp [hx]))
    simp at hd
    simp [gatherDirs, hd, ih2]

/-- C5: on an environment where no watched directory and no note directory
exists, every collector returns an empty but well-formed mapping without
raising: recent files is the empty list with count 0, notes is the empty
list with count 0, and the stats and clipboard collectors return their
explanatory fallbacks rather than raising on a missing dependency. -/
theorem collectors_empty_env
    (fs : FS) (watch_dirs : List (List String)) (now : Nat)
    (hw : ∀ d ∈ watch_dirs, fs.dirs.contains d = false)
    (hn : ∀ d ∈ note_dirs fs.home, fs.dirs.contains d = false) :
    collect_local_files fs watch_dirs now =
      Except.ok ⟨[], 0, watch_dirs.map pathStr⟩ ∧
    collect_notes fs = ⟨[], 0⟩ ∧
    (∀ stats pf hostname, collect_system_info false stats pf hostname =
      [("platform", JVal.str pf), ("hostname", JVal.str hostname),
       ("note", JVal.str "install psutil for full stats")]) ∧
    collect_clipboard ClipResult.exc =
      [("has_content", JVal.bool false),
       ("note", JVal.str "xclip not available or clipboard empty")] := by
  refine ⟨?_, ?_, fun _ _ _ => rfl, rfl⟩
  · simp [collect_local_files, gatherDirs_of_missing fs (now - 24 * 60 * 60) watch_dirs hw]
  · have h1 := hn (fs.home ++ ["Notes"]) (by simp [note_dirs])
    have h2 := hn (fs.home ++ ["Documents"]) (by simp [note_dirs])
    have h3 := hn (fs.home ++ ["Desktop"]) (by simp [note_dirs])
    simp at h1 h2 h3
    simp [collect_notes, note_dirs, h1, h2, h3]

/-- C5 witness: the theorem applied to a filesystem with no directories at
all. -/
theorem collectors_empty_env_witness :
    collect_local_files ⟨["home", "u"], [], []⟩ [["home", "u", "Documents"]] 500000 =
      Except.ok ⟨[], 0, [["home", "u", "Documents"]].map pathStr⟩ ∧
    collect_notes ⟨["home", "u"], [], []⟩ = ⟨[], 0⟩ :=
  ⟨(collectors_empty_env ⟨["home", "u"], [], []⟩ [["home", "u", "Documents"]] 500000
      (by decide) (by decide)).1,
   (collectors_empty_env ⟨["home", "u"], [], []⟩ [["home", "u", "Documents"]] 500000
      (by decide) (by decide)).2.1⟩

/-! ### Generic list lemmas for per-directory scans -/

theorem length_filter_or_disjoint {α : Type} (l : List α) (p q : α → Bool)
    (h : ∀ x ∈ l, ¬(p x = true ∧ q x = true)) :
    (l.filter (fun x => p x || q x)).length = (l.filter p).length + (l.filter q).length := by
  induction l with
  | nil => rfl
  | cons a rest ih =>
    have ha := h a (by simp)
    have ih2 := ih (fun x hx => h x (by simp [hx]))
    cases hp : p a <;> cases hq : q a
    · simp [List.filter_cons, hp, hq, ih2]
    · simp [List.filter_cons, hp, hq, ih2]; omega
    · simp [List.filter_cons, hp, hq, ih2]; omega
    · exact absurd ⟨hp, hq⟩ ha

theorem length_flatMap_map_filter {α β γ : Type} (l : List α) (ds : List β)
    (P : β → α → Bool) (g : α → γ)
    (hdisj : ds.Pairwise (fun d1 d2 => ∀ x ∈ l, ¬(P d1 x = true ∧ P d2 x = true))) :
    (ds.flatMap (fun d => (l.filter (P d)).map g)).length =
      (l.filter (fun x => ds.any (fun d => P d x))).length := by
  induction ds with
  | nil => simp
  | cons d rest ih =>
    rw [List.flatMap_cons, List.length_append, List.length_map, ih hdisj.of_cons]
    have hdisj2 : ∀ x ∈ l, ¬(P d x = true ∧ (rest.any (fun d2 => P d2 x)) = true) := by
      rintro x hx ⟨h1, h2⟩
      rcases List.any_eq_true.mp h2 with ⟨d2, hd2, hp2⟩
      exact (List.pairwise_cons.mp hdisj).1 d2 hd2 x hx ⟨h1, hp2⟩
    rw [← length_filter_or_disjoint l (P d) (fun x => rest.any (fun d2 => P d2 x)) hdisj2]
    rfl

theorem pairwise_flatMap_map_filter {α β γ : Type} (l : List α) (ds : List β)
    (P : β → α → Bool) (g : α → γ) (R : γ → γ → Prop)
    (hl : l.Pairwise (fun a b => R (g a) (g b)))
    (hne : ∀ a ∈ l, ∀ b ∈ l, a ≠ b → R (g a) (g b))
    (hdisj : ds.Pairwise (fun d1 d2 => ∀ x ∈ l, ¬(P d1 x = true ∧ P d2 x = true))) :
    (ds.flatMap (fun d => (l.filter (P d)).map g)).Pairwise R := by
  induction ds with
  | nil => simp
  | cons d rest ih =>
    rw [List.flatMap_cons, List.pairwise_append]
    refine ⟨?_, ih hdisj.of_cons, ?_⟩
    · rw [List.pairwise_map]
      exact List.Pairwise.sublist (List.filter_sublist l) hl
    · intro a ha b hb
      rcases List.mem_map.mp ha with ⟨x, hx, rfl⟩
      rcases List.mem_flatMap.mp hb with ⟨d2, hd2, hbmem⟩
      rcases List.mem_map.mp hbmem with ⟨y, hy, rfl⟩
      have hxl := List.mem_of_mem_filter hx
      have hyl := List.mem_of_mem_filter hy
      have hPx := List.of_mem_filter hx
      have hPy := List.of_mem_filter hy
      by_cases hxy : x = y
      · subst hxy
        exact absurd ⟨hPx, hPy⟩ ((List.pairwise_cons.mp hdisj).1 d2 hd2 x hxl)
      · exact hne x hxl y hyl hxy

/-- Two non-nested directories have no common strictly-below path. -/
theorem underDir_disjoint {d d2 p : List String}
    (h1 : d.isPrefixOf d2 = false) (h2 : d2.isPrefixOf d = false) :
    ¬(underDir d p = true ∧ underDir d2 p = true) := by
  rintro ⟨hd, hd2⟩
  simp only [underDir, Bool.and_eq_true, decide_eq_true_eq] at hd hd2
  have hp1 : d <+: p := by simpa using hd.1
  have hp2 : d2 <+: p := by simpa using hd2.1
  rcases List.prefix_or_prefix_of_prefix hp1 hp2 with h | h
  · have hcontra : d.isPrefixOf d2 = true := by simpa using h
    rw [h1] at hcontra
    cases hcontra
  · have hcontra : d2.isPrefixOf d = true := by simpa using h
    rw [h2] at hcontra
    cases hcontra

/-! ### Characterization of the recent-files scan -/

/-- The record scanDir builds for a file below the home directory. -/
def fileRecOf (home : List String) (f : FileEntry) : FileRec :=
  ⟨fileName f, String.intercalate "/" (f.path.drop home.length), size_kb f.size,
   f.mtime, (pySuffix (fileName f)).toLower⟩

theorem mkFileRec_of_under {home : List String} {f : FileEntry}
    (h : home.isPrefixOf f.path = true) :
    mkFileRec home f = Except.ok (fileRecOf home f) := by
  simp [mkFileRec, relToHome, h, fileRecOf]

theorem scanDir_eq (home : List String) (cutoff : Nat) (l : List FileEntry)
    (h1 : ∀ f ∈ l, home.isPrefixOf f.path = true)
    (h2 : ∀ f ∈ l, f.statOk = true) :
    scanDir home cutoff l =
      Except.ok ((l.filter (fun f => decide (cutoff < f.mtime))).map (fileRecOf home)) := by
  induction l with
  | nil => rfl
  | cons f rest ih =>
    have hst := h2 f (by simp)
    have hh := h1 f (by simp)
    have ih2 := ih (fun g hg => h1 g (by simp [hg])) (fun g hg => h2 g (by simp [hg]))
    by_cases hc : cutoff < f.mtime
    · simp [scanDir, hst, hc, mkFileRec_of_under hh, ih2, List.filter_cons]
    · simp [scanDir, hst, hc, ih2, List.filter_cons]

/-- The per-directory match predicate of the recent-files scan: modified
after the cutoff and strictly below the directory. -/
def fileHit (cutoff : Nat) (d : List String) (f : FileEntry) : Bool :=
  decide (cutoff < f.mtime) && underDir d f.path

/-- The flattened record list gatherDirs produces when every watched
directory exists. -/
def gatherList (fs : FS) (cutoff : Nat) (ds : List (List String)) : List FileRec :=
  ds.flatMap (fun d => (fs.files.filter (fileHit cutoff d)).map (fileRecOf fs.home))

theorem gatherDirs_eq (fs : FS) (cutoff : Nat) (ds : List (List String))
    (h1 : ∀ f ∈ fs.files, fs.home.isPrefixOf f.path = true)
    (h2 : ∀ f ∈ fs.files, f.statOk = true)
    (hex : ∀ d ∈ ds, fs.dirs.contains d = true) :
    gatherDirs fs cutoff ds = Except.ok (gatherList fs cutoff ds) := by
  induction ds with
  | nil => rfl
  | cons d rest ih =>
    have hd := hex d (by simp)
    have hscan := scanDir_eq fs.home cutoff (fs.files.filter (fun f => underDir d f.path))
      (fun g hg => h1 g (List.mem_of_mem_filter hg))
      (fun g hg => h2 g (List.mem_of_mem_filter hg))
    have ih2 := ih (fun x hx => hex x (by simp [hx]))
    have hd2 : d ∈ fs.dirs := by simpa using hd
    simp [gatherDirs, hd2, hscan, ih2, gatherList, List.flatMap_cons, List.filter_filter,
      fileHit]
    rfl

/-- Whether a file is one the recent-files collector should report: below
an existing watched directory and modified after the cutoff. -/
def fileMatches (fs : FS) (watch_dirs : List (List String)) (cutoff : Nat)
    (f : FileEntry) : Bool :=
  watch_dirs.any (fun d => fs.dirs.contains d && underDir d f.path) &&
    decide (cutoff < f.mtime)

theorem fileMatches_eq_anyHit (fs : FS) (cutoff : Nat) (ds : List (List String))
    (f : FileEntry) (hex : ∀ d ∈ ds, fs.dirs.contains d = true) :
    fileMatches fs ds cutoff f = ds.any (fun d => fileHit cutoff d f) := by
  induction ds with
  | nil => simp [fileMatches]
  | cons d rest ih =>
    have hd := hex d (by simp)
    have ih2 := ih (fun x hx => hex x (by simp [hx]))
    simp only [fileMatches, List.any_cons, hd, Bool.true_and] at ih2 ⊢
    cases hrec : decide (cutoff < f.mtime)
    · rw [hrec] at ih2
      simp only [Bool.and_false] at ih2 ⊢
      rw [← ih2]
      simp [fileHit, hrec]
    · rw [hrec] at ih2
      simp only [Bool.and_true] at ih2 ⊢
      rw [ih2]
      simp [fileHit, hrec]

theorem fileHit_disjoint_of_sep (fs : FS) (cutoff : Nat) (ds : List (List String))
    (hsep : ds.Pairwise (fun d1 d2 =>
      d1.isPrefixOf d2 = false ∧ d2.isPrefixOf d1 = false)) :
    ds.Pairwise (fun d1 d2 => ∀ x ∈ fs.files,
      ¬(fileHit cutoff d1 x = true ∧ fileHit cutoff d2 x = true)) := by
  refine hsep.imp ?_
  rintro d1 d2 ⟨h1, h2⟩ x hx ⟨ha, hb⟩
  have ha2 : underDir d1 x.path = true := by
    simp only [fileHit, Bool.and_eq_true] at ha
    exact ha.2
  have hb2 : underDir d2 x.path = true := by
    simp only [fileHit, Bool.and_eq_true] at hb
    exact hb.2
  exact underDir_disjoint h1 h2 ⟨ha2, hb2⟩

theorem gatherList_length (fs : FS) (cutoff : Nat) (ds : List (List String))
    (hex : ∀ d ∈ ds, fs.dirs.contains d = true)
    (hsep : ds.Pairwise (fun d1 d2 =>
      d1.isPrefixOf d2 = false ∧ d2.isPrefixOf d1 = false)) :
    (gatherList fs cutoff ds).length =
      (fs.files.filter (fileMatches fs ds cutoff)).length := by
  have hlen := length_flatMap_map_filter fs.files ds (fileHit cutoff) (fileRecOf fs.home)
    (fileHit_disjoint_of_sep fs cutoff ds hsep)
  unfold gatherList
  rw [hlen]
  congr 1
  apply List.filter_congr
  intro f hf
  exact (fileMatches_eq_anyHit fs cutoff ds f hex).symm

theorem gatherList_pairwise_ne (fs : FS) (cutoff : Nat) (ds : List (List String))
    (hsep : ds.Pairwise (fun d1 d2 =>
      d1.isPrefixOf d2 = false ∧ d2.isPrefixOf d1 = false))
    (hmt : (fs.files.map (fun f => f.mtime)).Nodup) :
    (gatherList fs cutoff ds).Pairwise (fun a b => a.modified ≠ b.modified) := by
  have hl : fs.files.Pairwise (fun a b =>
      (fileRecOf fs.home a).modified ≠ (fileRecOf fs.home b).modified) :=
    List.pairwise_map.mp hmt
  have hne : ∀ a ∈ fs.files, ∀ b ∈ fs.files, a ≠ b →
      (fileRecOf fs.home a).modified ≠ (fileRecOf fs.home b).modified := by
    intro a ha b hb hab heq
    exact hab (List.inj_on_of_nodup_map hmt ha hb heq)
  exact pairwise_flatMap_map_filter fs.files ds (fileHit cutoff) (fileRecOf fs.home) _
    hl hne (fileHit_disjoint_of_sep fs cutoff ds hsep)

/-- C2 counterexample: a watched directory that exists but lies outside the
user home directory makes collect_local_files raise (the ValueError of
relative_to is not caught), so the collector does not return for every
existing watch-directory list. -/
theorem collect_local_files_outside_home_raises :
    (FS.mk ["home", "u"] [["tmp", "w"]]
        [⟨["tmp", "w", "a.txt"], 900000, 256, true, true, ""⟩]).dirs.contains
      ["tmp", "w"] = true ∧
    collect_local_files
      ⟨["home", "u"], [["tmp", "w"]],
        [⟨["tmp", "w", "a.txt"], 900000, 256, true, true, ""⟩]⟩
      [["tmp", "w"]] 960000 = Except.error () :=
  ⟨rfl, rfl⟩

/-- C2 amended: for every watch-directory list whose directories exist, are
pairwise non-nested, and whose files lie inside the user home directory
(so every home-relative path is computable; a file outside home instead
raises), with stat succeeding everywhere and distinct modification times,
collect_local_files returns without raising a mapping whose recent_files
list contains exactly the files modified within the last 24 hours (each
record built with name, home-relative path, size in KB rounded to 1
decimal, modification time and lowercased extension), sorted strictly
descending by modification time and truncated to 50 entries, with count
equal to the true total number of matches even when greater than 50. -/
theorem collect_local_files_correct
    (fs : FS) (watch_dirs : List (List String)) (now : Nat)
    (hhome : ∀ f ∈ fs.files, fs.home.isPrefixOf f.path = true)
    (hstat : ∀ f ∈ fs.files, f.statOk = true)
    (hex : ∀ d ∈ watch_dirs, fs.dirs.contains d = true)
    (hsep : watch_dirs.Pairwise (fun d1 d2 =>
      d1.isPrefixOf d2 = false ∧ d2.isPrefixOf d1 = false))
    (hmt : (fs.files.map (fun f => f.mtime)).Nodup) :
    ∃ res, collect_local_files fs watch_dirs now = Except.ok res ∧
      res.count =
        (fs.files.filter (fileMatches fs watch_dirs (now - 24 * 60 * 60))).length ∧
      res.recent_files.length = min 50 res.count ∧
      (∀ r ∈ res.recent_files, ∃ f ∈ fs.files,
        fileMatches fs watch_dirs (now - 24 * 60 * 60) f = true ∧
        mkFileRec fs.home f = Except.ok r) ∧
      (res.count ≤ 50 → ∀ f ∈ fs.files,
        fileMatches fs watch_dirs (now - 24 * 60 * 60) f = true →
        ∃ r ∈ res.recent_files, mkFileRec fs.home f = Except.ok r) ∧
      res.recent_files.Pairwise (fun a b => b.modified < a.modified) ∧
      res.watched_dirs = watch_dirs.map pathStr := by
  have hgather := gatherDirs_eq fs (now - 24 * 60 * 60) watch_dirs hhome hstat hex
  refine ⟨⟨((gatherList fs (now - 24 * 60 * 60) watch_dirs).mergeSort fileDesc).take 50,
    (gatherList fs (now - 24 * 60 * 60) watch_dirs).length, watch_dirs.map pathStr⟩,
    ?_, ?_, ?_, ?_, ?_, ?_, rfl⟩
  · simp [collect_local_files, hgather]
  · exact gatherList_length fs (now - 24 * 60 * 60) watch_dirs hex hsep
  · simp
  · intro r hr
    have hr2 : r ∈ (gatherList fs (now - 24 * 60 * 60) watch_dirs).mergeSort fileDesc :=
      (List.take_sublist 50 _).subset hr
    have hr3 : r ∈ gatherList fs (now - 24 * 60 * 60) watch_dirs :=
      List.mem_mergeSort.mp hr2
    simp only [gatherList] at hr3
    rcases List.mem_flatMap.mp hr3 with ⟨d, hd, hmem⟩
    rcases List.mem_map.mp hmem with ⟨f, hf, rfl⟩
    have hfl := List.mem_of_mem_filter hf
    have hhit := List.of_mem_filter hf
    refine ⟨f, hfl, ?_, mkFileRec_of_under (hhome f hfl)⟩
    rw [fileMatches_eq_anyHit fs (now - 24 * 60 * 60) watch_dirs f hex]
    exact List.any_eq_true.mpr ⟨d, hd, hhit⟩
  · intro hcnt f hfl hmatch
    have htake : ((gatherList fs (now - 24 * 60 * 60) watch_dirs).mergeSort fileDesc).take 50
        = (gatherList fs (now - 24 * 60 * 60) watch_dirs).mergeSort fileDesc :=
      List.take_of_length_le (by simpa using hcnt)
    rw [htake]
    refine ⟨fileRecOf fs.home f, ?_, mkFileRec_of_under (hhome f hfl)⟩
    rw [List.mem_mergeSort]
    rw [fileMatches_eq_anyHit fs (now - 24 * 60 * 60) watch_dirs f hex] at hmatch
    rcases List.any_eq_true.mp hmatch with ⟨d, hd, hhit⟩
    simp only [gatherList]
    exact List.mem_flatMap.mpr ⟨d, hd,
      List.mem_map.mpr ⟨f, List.mem_filter.mpr ⟨hfl, hhit⟩, rfl⟩⟩
  · have htrans : ∀ (a b c : FileRec), fileDesc a b → fileDesc b c → fileDesc a c := by
      intro a b c hab hbc
      simp only [fileDesc, decide_eq_true_eq] at hab hbc ⊢
      omega
    have htotal : ∀ (a b : FileRec), fileDesc a b || fileDesc b a := by
      intro a b
      simp only [fileDesc, Bool.or_eq_true, decide_eq_true_eq]
      omega
    have hsorted := List.sorted_mergeSort htrans htotal
      (gatherList fs (now - 24 * 60 * 60) watch_dirs)
    have hne := gatherList_pairwise_ne fs (now - 24 * 60 * 60) watch_dirs hsep hmt
    have hne2 : ((gatherList fs (now - 24 * 60 * 60) watch_dirs).mergeSort
        fileDesc).Pairwise (fun a b => a.modified ≠ b.modified) :=
      ((List.mergeSort_perm (gatherList fs (now - 24 * 60 * 60) watch_dirs)
        fileDesc).pairwise_iff (fun h => Ne.symm h)).mpr hne
    have hcomb := (hsorted.and hne2).imp
      (fun h => lt_of_le_of_ne (by simpa [fileDesc] using h.1) (Ne.symm h.2))
    exact List.Pairwise.sublist (List.take_sublist 50 _) hcomb

/-- The example filesystem of the recent-files scenario: a watched folder
below home with three files modified in the last 24 hours and one stale
file. -/
def exRecentFS : FS :=
  ⟨["home", "u"], [["home", "u", "tmpw"]],
   [⟨["home", "u", "tmpw", "a.txt"], 900000, 256, true, true, ""⟩,
    ⟨["home", "u", "tmpw", "b.pdf"], 950000, 2048, true, true, ""⟩,
    ⟨["home", "u", "tmpw", "c"], 920000, 100, true, true, ""⟩,
    ⟨["home", "u", "tmpw", "old.txt"], 100000, 5, true, true, ""⟩]⟩

/-- C2 witness: the amended theorem applied to the concrete scenario
filesystem. -/
theorem collect_local_files_correct_witness :
    ∃ res, collect_local_files exRecentFS [["home", "u", "tmpw"]] 960000 = Except.ok res ∧
      res.count = (exRecentFS.files.filter
        (fileMatches exRecentFS [["home", "u", "tmpw"]] (960000 - 24 * 60 * 60))).length ∧
      res.recent_files.length = min 50 res.count ∧
      (∀ r ∈ res.recent_files, ∃ f ∈ exRecentFS.files,
        fileMatches exRecentFS [["home", "u", "tmpw"]] (960000 - 24 * 60 * 60) f = true ∧
        mkFileRec exRecentFS.home f = Except.ok r) ∧
      (res.count ≤ 50 → ∀ f ∈ exRecentFS.files,
        fileMatches exRecentFS [["home", "u", "tmpw"]] (960000 - 24 * 60 * 60) f = true →
        ∃ r ∈ res.recent_files, mkFileRec exRecentFS.home f = Except.ok r) ∧
      res.recent_files.Pairwise (fun a b => b.modified < a.modified) ∧
      res.watched_dirs = [["home", "u", "tmpw"]].map pathStr :=
  collect_local_files_correct exRecentFS [["home", "u", "tmpw"]] 960000
    (by decide) (by decide) (by decide) (by simp) (by decide)

/-! ### Characterization of the notes scan -/

/-- The record collect_notes builds for a readable note file below home. -/
def noteRecOf (home : List String) (f : FileEntry) : NoteRec :=
  ⟨fileName f, String.intercalate "/" (f.path.drop home.length),
   (f.content.take 200).trim, wordCount f.content, f.mtime⟩

theorem mkNoteRec_of_under {home : List String} {f : FileEntry}
    (h : home.isPrefixOf f.path = true) :
    mkNoteRec home f = Except.ok (noteRecOf home f) := by
  simp [mkNoteRec, relToHome, h, noteRecOf]

theorem scanNotes_eq (home : List String) (l : List FileEntry)
    (h1 : ∀ f ∈ l, home.isPrefixOf f.path = true) :
    scanNotes home l = (l.filter (fun f => f.readable && f.statOk)).map (noteRecOf home) := by
  induction l with
  | nil => rfl
  | cons f rest ih =>
    have hh := h1 f (by simp)
    have ih2 := ih (fun g hg => h1 g (by simp [hg]))
    by_cases hrd : (f.readable && f.statOk) = true
    · simp [scanNotes, hrd, mkNoteRec_of_under hh, ih2, List.filter_cons]
    · have hrd2 : (f.readable && f.statOk) = false := by
        revert hrd; cases (f.readable && f.statOk) <;> simp
      simp [scanNotes, hrd2, ih2, List.filter_cons]

/-- A path strictly below a first-level child of home is below home. -/
theorem under_append_home {home : List String} {x : String} {p : List String}
    (h : underDir (home ++ [x]) p = true) : home.isPrefixOf p = true := by
  simp only [underDir, Bool.and_eq_true] at h
  have h2 : (home ++ [x]) <+: p := by simpa using h.1
  have h3 : home <+: p := (List.prefix_append home [x]).trans h2
  simpa using h3

/-- The per-directory match predicate of the notes scan, in the shape the
code filters produce: directory exists, file read and stat succeed, note
extension, strictly below the directory. -/
def noteHit (fs : FS) (d : List String) (f : FileEntry) : Bool :=
  fs.dirs.contains d && ((f.readable && f.statOk) && (isNoteFile f && underDir d f.path))

theorem note_branch_eq (fs : FS) (x : String) :
    (if fs.dirs.contains (fs.home ++ [x]) then
       scanNotes fs.home
         ((fs.files.filter (fun f => underDir (fs.home ++ [x]) f.path)).filter isNoteFile)
     else []) =
    (fs.files.filter (noteHit fs (fs.home ++ [x]))).map (noteRecOf fs.home) := by
  by_cases hc : fs.dirs.contains (fs.home ++ [x]) = true
  · rw [if_pos hc]
    have hu : ∀ f ∈ (fs.files.filter
        (fun f => underDir (fs.home ++ [x]) f.path)).filter isNoteFile,
        fs.home.isPrefixOf f.path = true := by
      intro f hf
      have hin : f ∈ fs.files.filter (fun g => underDir (fs.home ++ [x]) g.path) :=
        List.mem_of_mem_filter hf
      have hund : underDir (fs.home ++ [x]) f.path = true := (List.mem_filter.mp hin).2
      exact under_append_home hund
    rw [scanNotes_eq fs.home _ hu]
    rw [List.filter_filter, List.filter_filter]
    congr 1
    apply List.filter_congr
    intro f hf
    simp only [noteHit, hc, Bool.true_and]
    cases f.readable <;> cases f.statOk <;> cases isNoteFile f <;>
      cases underDir (fs.home ++ [x]) f.path <;> rfl
  · have hc2 : fs.dirs.contains (fs.home ++ [x]) = false := by
      revert hc; cases fs.dirs.contains (fs.home ++ [x]) <;> simp
    have hc3 : (fs.home ++ [x]) ∉ fs.dirs := by simpa using hc2
    rw [if_neg (by simpa using hc2)]
    have hfil : fs.files.filter (noteHit fs (fs.home ++ [x])) = [] := by
      apply List.filter_eq_nil_iff.mpr
      intro f hf
      simp [noteHit, hc3]
    rw [hfil]
    rfl

/-- The flattened record list the notes scan produces. -/
def noteGatherList (fs : FS) : List NoteRec :=
  (note_dirs fs.home).flatMap (fun d =>
    (fs.files.filter (noteHit fs d)).map (noteRecOf fs.home))

theorem collect_notes_eq (fs : FS) :
    collect_notes fs = ⟨((noteGatherList fs).mergeSort noteDesc).take 20,
      (noteGatherList fs).length⟩ := by
  have h1 := note_branch_eq fs "Notes"
  have h2 := note_branch_eq fs "Documents"
  have h3 := note_branch_eq fs "Desktop"
  simp only [collect_notes, noteGatherList, note_dirs, List.flatMap_cons,
    List.flatMap_nil, List.append_nil, h1, h2, h3]

theorem append_singleton_sep {home : List String} {x y : String} (hxy : x ≠ y) :
    (home ++ [x]).isPrefixOf (home ++ [y]) = false := by
  cases hP : (home ++ [x]).isPrefixOf (home ++ [y])
  · rfl
  · exfalso
    have h2 : (home ++ [x]) <+: (home ++ [y]) := by simpa using hP
    have h3 := h2.eq_of_length (by simp)
    have h4 : [x] = [y] := List.append_cancel_left h3
    simp at h4
    exact hxy h4

theorem note_dirs_sep (home : List String) :
    (note_dirs home).Pairwise (fun d1 d2 =>
      d1.isPrefixOf d2 = false ∧ d2.isPrefixOf d1 = false) := by
  constructor
  · intro b hb
    rcases List.mem_cons.mp hb with rfl | hb2
    · exact ⟨append_singleton_sep (by decide), append_singleton_sep (by decide)⟩
    · rcases List.mem_singleton.mp hb2 with rfl
      exact ⟨append_singleton_sep (by decide), append_singleton_sep (by decide)⟩
  constructor
  · intro b hb
    rcases List.mem_singleton.mp hb with rfl
    exact ⟨append_singleton_sep (by decide), append_singleton_sep (by decide)⟩
  constructor
  · intro b hb
    cases hb
  · exact List.Pairwise.nil

/-- Whether a file is one the notes collector should report: below an
existing note directory, with a note extension, readable and stattable. -/
def noteMatches (fs : FS) (f : FileEntry) : Bool :=
  (note_dirs fs.home).any (fun d => fs.dirs.contains d && underDir d f.path) &&
    (isNoteFile f && (f.readable && f.statOk))

theorem any_noteHit_eq (fs : FS) (ds : List (List String)) (f : FileEntry) :
    ds.any (fun d => noteHit fs d f) =
      (ds.any (fun d => fs.dirs.contains d && underDir d f.path) &&
        (isNoteFile f && (f.readable && f.statOk))) := by
  induction ds with
  | nil => simp
  | cons d rest ih =>
    simp only [List.any_cons, ih, noteHit]
    cases fs.dirs.contains d <;> cases underDir d f.path <;>
      cases isNoteFile f <;> cases f.readable <;> cases f.statOk <;> simp

theorem noteMatches_eq_anyHit (fs : FS) (f : FileEntry) :
    noteMatches fs f = (note_dirs fs.home).any (fun d => noteHit fs d f) :=
  (any_noteHit_eq fs (note_dirs fs.home) f).symm

theorem noteHit_disjoint (fs : FS) :
    (note_dirs fs.home).Pairwise (fun d1 d2 => ∀ x ∈ fs.files,
      ¬(noteHit fs d1 x = true ∧ noteHit fs d2 x = true)) := by
  refine (note_dirs_sep fs.home).imp ?_
  rintro d1 d2 ⟨h1, h2⟩ x hx ⟨ha, hb⟩
  have ha2 : underDir d1 x.path = true := by
    simp only [noteHit, Bool.and_eq_true] at ha
    exact ha.2.2.2
  have hb2 : underDir d2 x.path = true := by
    simp only [noteHit, Bool.and_eq_true] at hb
    exact hb.2.2.2
  exact underDir_disjoint h1 h2 ⟨ha2, hb2⟩

theorem noteGatherList_length (fs : FS) :
    (noteGatherList fs).length = (fs.files.filter (noteMatches fs)).length := by
  have hlen := length_flatMap_map_filter fs.files (note_dirs fs.home) (noteHit fs)
    (noteRecOf fs.home) (noteHit_disjoint fs)
  unfold noteGatherList
  rw [hlen]
  congr 1
  apply List.filter_congr
  intro f hf
  rw [any_noteHit_eq]
  rfl

theorem note_dir_form {home d : List String}
    (hd : d ∈ note_dirs home) : ∃ x, d = home ++ [x] := by
  simp only [note_dirs, List.mem_cons, List.not_mem_nil, or_false] at hd
  rcases hd with rfl | rfl | rfl
  · exact ⟨"Notes", rfl⟩
  · exact ⟨"Documents", rfl⟩
  · exact ⟨"Desktop", rfl⟩

/-- C7: every entry of collect_notes comes from a readable note file, with
preview equal to the first 200 characters of the content trimmed of
surrounding whitespace and word_count the number of whitespace-separated
words of the entire content; the notes list is sorted descending by
modification time and truncated to the 20 most recent, while count equals
the total number of matching note files. -/
theorem collect_notes_correct (fs : FS) :
    (∀ r ∈ (collect_notes fs).notes, ∃ f ∈ fs.files,
      noteMatches fs f = true ∧
      r.preview = (f.content.take 200).trim ∧
      r.word_count = wordCount f.content ∧
      r.modified = f.mtime ∧
      mkNoteRec fs.home f = Except.ok r) ∧
    (collect_notes fs).count = (fs.files.filter (noteMatches fs)).length ∧
    (collect_notes fs).notes.length = min 20 (collect_notes fs).count ∧
    ((collect_notes fs).count ≤ 20 → ∀ f ∈ fs.files, noteMatches fs f = true →
      ∃ r ∈ (collect_notes fs).notes, mkNoteRec fs.home f = Except.ok r) ∧
    (collect_notes fs).notes.Pairwise (fun a b => b.modified ≤ a.modified) := by
  rw [collect_notes_eq]
  refine ⟨?_, noteGatherList_length fs, ?_, ?_, ?_⟩
  · intro r hr
    have hr2 : r ∈ (noteGatherList fs).mergeSort noteDesc :=
      (List.take_sublist 20 _).subset hr
    have hr3 : r ∈ noteGatherList fs := List.mem_mergeSort.mp hr2
    simp only [noteGatherList] at hr3
    rcases List.mem_flatMap.mp hr3 with ⟨d, hd, hmem⟩
    rcases List.mem_map.mp hmem with ⟨f, hf, rfl⟩
    have hfl := List.mem_of_mem_filter hf
    have hhit := List.of_mem_filter hf
    have hunder : underDir d f.path = true := by
      simp only [noteHit, Bool.and_eq_true] at hhit
      exact hhit.2.2.2
    rcases note_dir_form hd with ⟨x, rfl⟩
    refine ⟨f, hfl, ?_, ?_, ?_, ?_, ?_⟩
    · rw [noteMatches_eq_anyHit]
      exact List.any_eq_true.mpr ⟨fs.home ++ [x], hd, hhit⟩
    · simp [noteRecOf]
    · simp [noteRecOf]
    · simp [noteRecOf]
    · exact mkNoteRec_of_under (under_append_home hunder)
  · simp
  · intro hcnt f hfl hmatch
    have htake : ((noteGatherList fs).mergeSort noteDesc).take 20
        = (noteGatherList fs).mergeSort noteDesc :=
      List.take_of_length_le (by simpa using hcnt)
    rw [htake]
    rw [noteMatches_eq_anyHit] at hmatch
    rcases List.any_eq_true.mp hmatch with ⟨d, hd, hhit⟩
    have hunder : underDir d f.path = true := by
      simp only [noteHit, Bool.and_eq_true] at hhit
      exact hhit.2.2.2
    rcases note_dir_form hd with ⟨x, rfl⟩
    refine ⟨noteRecOf fs.home f, ?_, mkNoteRec_of_under (under_append_home hunder)⟩
    rw [List.mem_mergeSort]
    simp only [noteGatherList]
    exact List.mem_flatMap.mpr ⟨fs.home ++ [x], hd,
      List.mem_map.mpr ⟨f, List.mem_filter.mpr ⟨hfl, hhit⟩, rfl⟩⟩
  · have htrans : ∀ (a b c : NoteRec), noteDesc a b → noteDesc b c → noteDesc a c := by
      intro a b c hab hbc
      simp only [noteDesc, decide_eq_true_eq] at hab hbc ⊢
      omega
    have htotal : ∀ (a b : NoteRec), noteDesc a b || noteDesc b a := by
      intro a b
      simp only [noteDesc, Bool.or_eq_true, decide_eq_true_eq]
      omega
    have hsorted := List.sorted_mergeSort htrans htotal (noteGatherList fs)
    exact List.Pairwise.sublist (List.take_sublist 20 _)
      (hsorted.imp (fun h => by simpa [noteDesc] using h))

end Kryv
